import Mathlib

/-!
Verification of the happy_weekly_mailing core pipeline: a shallow embedding of
`calendar_fetcher.py` (feed parsing, window filtering, sorting, presentation)
and `email_generator.py` (template region extraction and placeholder
substitution), with theorems checking the specified properties.

Strings are modelled as `List Char`.  Machine-level concerns (network I/O,
SMTP) are outside the embedding; datetimes are modelled as absolute instants
in seconds paired with a fixed UTC offset for the configured timezone, which
matches the source's use of timezone-aware datetimes under a fixed offset.
-/

abbrev Str := List Char

/-- Boolean test that `p` is a prefix of `s` (models Python startswith /
the anchored part of a regex literal match). -/
def isPre : Str → Str → Bool
  | [], _ => true
  | _ :: _, [] => false
  | p :: ps, c :: cs => p == c && isPre ps cs

/-- Index of the first occurrence of `pat` in `s`, if any.  This is the
search order of `re.search` for a literal-anchored pattern and of
`str.find`: leftmost occurrence first. -/
def findSub (pat : Str) : Str → Option Nat
  | [] => if isPre pat [] then some 0 else none
  | c :: t => if isPre pat (c :: t) then some 0 else (findSub pat t).map (· + 1)

/-- Whether `pat` occurs anywhere in `s` (Python `pat in s`). -/
def containsSub (pat s : Str) : Bool := (findSub pat s).isSome

/-- The characters stripped by Python `str.strip()` with no argument
(ASCII whitespace). -/
def pyIsSpace (c : Char) : Bool :=
  c == ' ' || c == '\t' || c == '\n' || c == '\r' || c == '\x0B' || c == '\x0C'

/-- Python `str.strip()`: drop whitespace from both ends. -/
def pyStrip (s : Str) : Str :=
  ((s.dropWhile pyIsSpace).reverse.dropWhile pyIsSpace).reverse

/-- Fuel-indexed worker for `strReplace`; the fuel bounds the number of
scanning steps and `s.length` is always sufficient because each step
consumes at least one character. -/
def strReplaceAux (pat repl : Str) : Nat → Str → Str
  | 0, s => s
  | _ + 1, [] => []
  | n + 1, c :: t =>
    if pat ≠ [] ∧ isPre pat (c :: t) then
      repl ++ strReplaceAux pat repl n ((c :: t).drop pat.length)
    else
      c :: strReplaceAux pat repl n t

/-- Python `s.replace(pat, repl)`: replace all non-overlapping occurrences
left to right; replaced text is not rescanned. -/
def strReplace (pat repl s : Str) : Str := strReplaceAux pat repl s.length s

/-- Python `"\n".join(parts)`. -/
def joinNL : List Str → Str
  | [] => []
  | [x] => x
  | x :: xs => x ++ '\n' :: joinNL xs

/-! ## Template engine (`email_generator.py`) -/

/-- The start marker of the repeatable event region. -/
def startMarker : Str := "<!-- EVENT_LOOP_START -->".toList

/-- The end marker of the repeatable event region. -/
def endMarker : Str := "<!-- EVENT_LOOP_END -->".toList

/-- The error fragment returned by `_generate_events_html` when the event
template cannot be extracted.  The apostrophe is assembled explicitly. -/
def errorFragment : Str :=
  "<p>Erreur : template d".toList ++ [Char.ofNat 39] ++ "événement non trouvé</p>".toList

/-- Display record produced by `format_event_for_email`; field order is the
Python dict insertion order, which drives substitution order. -/
structure DisplayEvent where
  day : Str
  month : Str
  month_short : Str
  time : Str
  title : Str
  location : Str
  description : Str
  event_color : Str
  icon : Str
  add_to_google : Str
  add_to_outlook : Str
  add_to_yahoo : Str
  add_to_ical : Str
deriving DecidableEq

/-- `event.items()` in dict insertion order, paired with the `{field}`
placeholder built by `_fill_event_template`. -/
def fieldPairs (e : DisplayEvent) : List (Str × Str) :=
  [("{day}".toList, e.day),
   ("{month}".toList, e.month),
   ("{month_short}".toList, e.month_short),
   ("{time}".toList, e.time),
   ("{title}".toList, e.title),
   ("{location}".toList, e.location),
   ("{description}".toList, e.description),
   ("{event_color}".toList, e.event_color),
   ("{icon}".toList, e.icon),
   ("{add_to_google}".toList, e.add_to_google),
   ("{add_to_outlook}".toList, e.add_to_outlook),
   ("{add_to_yahoo}".toList, e.add_to_yahoo),
   ("{add_to_ical}".toList, e.add_to_ical)]

/-- `_fill_event_template`: sequentially replace each `{field}` placeholder
with the field value, one field at a time in dict order. -/
def fillEventTemplate (tpl : Str) (e : DisplayEvent) : Str :=
  (fieldPairs e).foldl (fun acc kv => strReplace kv.1 kv.2 acc) tpl

/-- `_extract_event_template`: the region between the first start marker and
the first end marker after it (the non-greedy `re.search`), stripped;
empty string when the region is absent. -/
def extractEventTemplate (s : Str) : Str :=
  match findSub startMarker s with
  | none => []
  | some p =>
    match findSub endMarker (s.drop (p + startMarker.length)) with
    | none => []
    | some q => pyStrip ((s.drop (p + startMarker.length)).take q)

/-- `_generate_events_html`: error fragment when no event template was
extracted, else the filled blocks joined by a line break. -/
def generateEventsHtml (template : Str) (events : List DisplayEvent) : Str :=
  let eventTemplate := extractEventTemplate template
  if eventTemplate = [] then errorFragment
  else joinNL (events.map (fillEventTemplate eventTemplate))

/-- Fuel-indexed worker for `replaceRegions`; each match consumes both
markers, so `s.length` steps of fuel always suffice. -/
def replaceRegionsAux (x : Str) : Nat → Str → Str
  | 0, s => s
  | n + 1, s =>
    match findSub startMarker s with
    | none => s
    | some p =>
      match findSub endMarker (s.drop (p + startMarker.length)) with
      | none => s
      | some q =>
        s.take p ++ x ++
          replaceRegionsAux x n (s.drop (p + startMarker.length + q + endMarker.length))

/-- `_replace_events_section`: `re.sub` over the non-greedy dot-all marker
pattern — every leftmost-shortest marker region is replaced by `x`, the
replacement text is not rescanned.  The replacement is inserted literally
(the source relies on `events_html` containing no backslash escapes). -/
def replaceRegions (x s : Str) : Str := replaceRegionsAux x s.length s

/-- `EmailGenerator.generate`, starting from the already-loaded template
text: build the events HTML, then substitute it for the marker region. -/
def generateFromTemplate (template : Str) (events : List DisplayEvent) : Str :=
  replaceRegions (generateEventsHtml template events) template

/-! ## Calendar model (`calendar_fetcher.py`) -/

/-- A timezone-aware datetime: the absolute instant in seconds since the
epoch, plus the UTC offset in seconds of the timezone it is rendered in.
Comparison of aware datetimes compares instants; `strftime` reads the
civil fields of `instant + offset`. -/
structure AwareDT where
  instant : Int
  offset : Int
deriving DecidableEq

/-- The value of an iCal `DTSTART`/`DTEND` field: a bare date (all-day, in
days since the epoch of the configured timezone's calendar), a naive
datetime (local wall-clock seconds), or an aware datetime (absolute
instant). -/
inductive DtVal where
  | dateOnly (days : Int)
  | naive (wallSec : Int)
  | aware (instantSec : Int)
deriving DecidableEq

/-- A normalized end value: `dtend` datetimes are converted like the start,
but a date-only `dtend` is kept as a raw date by the source. -/
inductive EndVal where
  | dt (a : AwareDT)
  | dateOnly (days : Int)
deriving DecidableEq

/-- One component of the parsed feed.  `dtstart = none` models an entry
whose start is missing or unparsable (the `.dt` access raises and the
exception is caught inside `_parse_event`). -/
structure VComponent where
  cname : Str
  dtstart : Option DtVal
  dtend : Option DtVal
  summary : Option Str
  description : Option Str
  location : Option Str
deriving DecidableEq

/-- A parsed raw event, the dictionary built by `_parse_event`. -/
structure RawEvent where
  title : Str
  description : Str
  location : Str
  startDT : AwareDT
  endDT : Option EndVal
  isAllDay : Bool
deriving DecidableEq

/-- Start normalization of `_parse_event` for a timezone with fixed UTC
offset `tz` (seconds): date-only values become local midnight localized;
naive datetimes are localized; aware datetimes are converted. -/
def normalizeStart (tz : Int) : DtVal → AwareDT
  | .dateOnly d => ⟨d * 86400 - tz, tz⟩
  | .naive w => ⟨w - tz, tz⟩
  | .aware i => ⟨i, tz⟩

/-- End normalization of `_parse_event`: datetimes are localized/converted,
a date-only end is left untouched. -/
def normalizeEnd (tz : Int) : DtVal → EndVal
  | .dateOnly d => .dateOnly d
  | .naive w => .dt ⟨w - tz, tz⟩
  | .aware i => .dt ⟨i, tz⟩

/-- `_parse_event`: `none` when the start is missing/unparsable (exception
caught, entry dropped) or when the start instant falls outside the closed
window `[startFilter, endFilter]`. -/
def parseEvent (tz : Int) (c : VComponent) (startFilter endFilter : Int) :
    Option RawEvent :=
  match c.dtstart with
  | none => none
  | some dv =>
    let s := normalizeStart tz dv
    if s.instant < startFilter ∨ s.instant > endFilter then none
    else
      let location := c.location.getD []
      some
        { title := c.summary.getD "Sans titre".toList
          description := c.description.getD []
          location := if location ≠ [] then location else "Lieu à confirmer".toList
          startDT := s
          endDT := (c.dtend.map (normalizeEnd tz))
          isAllDay := match dv with | .dateOnly _ => true | _ => false }

/-- Stable insertion used to model `list.sort(key=start_datetime)`: a stable
sort's output is uniquely determined by the key order and the input order,
so stable insertion sort computes the same list as Python's stable sort. -/
def insertByStart (x : RawEvent) : List RawEvent → List RawEvent
  | [] => [x]
  | y :: ys =>
    if x.startDT.instant ≤ y.startDT.instant then x :: y :: ys
    else y :: insertByStart x ys

/-- Stable sort by start instant (`events.sort(key=lambda x: x['start_datetime'])`). -/
def sortByStart : List RawEvent → List RawEvent
  | [] => []
  | x :: xs => insertByStart x (sortByStart xs)

/-- The event list accumulated by `fetch_events` before sorting: walk the
components in feed order, keep `VEVENT`s whose parse succeeds. -/
def parsedEvents (tz : Int) (comps : List VComponent) (now daysAhead : Int) :
    List RawEvent :=
  (comps.filter (fun c => c.cname == "VEVENT".toList)).filterMap
    (fun c => parseEvent tz c now (now + daysAhead * 86400))

/-- `fetch_events` after a successful feed download: parse, filter to the
window `[now, now + days_ahead]`, sort by start. -/
def fetchEvents (tz : Int) (comps : List VComponent) (now daysAhead : Int) :
    List RawEvent :=
  sortByStart (parsedEvents tz comps now daysAhead)

/-! ## Event presentation (`format_event_for_email` and helpers) -/

/-- Python `str.lower()` restricted to the character ranges the titles use:
ASCII letters and the Latin-1 accented capitals. -/
def pyLower (c : Char) : Char :=
  if 'A' ≤ c ∧ c ≤ 'Z' then Char.ofNat (c.toNat + 32)
  else if 0xC0 ≤ c.toNat ∧ c.toNat ≤ 0xDE ∧ c.toNat ≠ 0xD7 then Char.ofNat (c.toNat + 32)
  else c

/-- The keyword-driven icon chain of `format_event_for_email`
(lines 155-167): first matching keyword group wins. -/
def chooseIcon (title : Str) : Str :=
  let t := title.map pyLower
  if containsSub "repas".toList t || containsSub "déjeuner".toList t
      || containsSub "dîner".toList t then "🍽️".toList
  else if containsSub "randonn".toList t || containsSub "marche".toList t
      || containsSub "balade".toList t then "🥾".toList
  else if containsSub "jardin".toList t || containsSub "potager".toList t then
    "🌱".toList
  else if containsSub "sortie".toList t || containsSub "visite".toList t then
    "🚌".toList
  else if containsSub "réunion".toList t || containsSub "assemblée".toList t then
    "📋".toList
  else "🎉".toList

/-- The keyword groups in the spec's priority order (meal, hike/walk,
gardening, outing/visit, meeting/assembly), each with its icon. -/
def iconGroups : List (List Str × Str) :=
  [(["repas".toList, "déjeuner".toList, "dîner".toList], "🍽️".toList),
   (["randonn".toList, "marche".toList, "balade".toList], "🥾".toList),
   (["jardin".toList, "potager".toList], "🌱".toList),
   (["sortie".toList, "visite".toList], "🚌".toList),
   (["réunion".toList, "assemblée".toList], "📋".toList)]

/-- Modelled from the spec's words for comparison with `chooseIcon`:
"first matching keyword group wins, in this priority order ... default
celebration icon", with case-insensitive substring matching. -/
def specSelectIcon (title : Str) : Str :=
  match iconGroups.find?
      (fun g => g.1.any (fun k => containsSub k (title.map pyLower))) with
  | some g => g.2
  | none => "🎉".toList

/-- The HTML paragraph opening of the description fragment. -/
def descPrefix : Str :=
  "<p style=\"color: #777; font-size: 14px; margin: 8px 0 0 0; line-height: 1.5;\">".toList

/-- The HTML paragraph closing of the description fragment. -/
def descSuffix : Str := "</p>".toList

/-- Lines 146-149 of `format_event_for_email`: empty fragment unless the
description is truthy and strips to something non-empty, else the raw
description wrapped in the paragraph. -/
def descriptionHtml (d : Str) : Str :=
  if d ≠ [] ∧ pyStrip d ≠ [] then descPrefix ++ d ++ descSuffix else []

/-! ### Civil-date formatting (Python `strftime`) -/

/-- Days-since-epoch to Gregorian `(year, month, day)`
(the standard civil-from-days algorithm, truncated integer division). -/
def civilFromDays (z0 : Int) : Int × Int × Int :=
  let z := z0 + 719468
  let era := (if 0 ≤ z then z else z - 146096) / 146097
  let doe := z - era * 146097
  let yoe := (doe - doe / 1460 + doe / 36524 - doe / 146096) / 365
  let y := yoe + era * 400
  let doy := doe - (365 * yoe + yoe / 4 - yoe / 100)
  let mp := (5 * doy + 2) / 153
  let d := doy - (153 * mp + 2) / 5 + 1
  let m := mp + (if mp < 10 then 3 else -9)
  (y + (if m ≤ 2 then 1 else 0), m, d)

/-- Zero-pad a (nonnegative) field to two digits. -/
def pad2 (n : Int) : Str :=
  let s := (Nat.repr n.toNat).toList
  if n.toNat < 10 then '0' :: s else s

/-- Zero-pad a (nonnegative) year to four digits. -/
def pad4 (n : Int) : Str :=
  let s := (Nat.repr n.toNat).toList
  List.replicate (4 - s.length) '0' ++ s

/-- `strftime('%Y%m%d')` of a civil day count: a bare `YYYYMMDD` date. -/
def fmtDate8 (days : Int) : Str :=
  let c := civilFromDays days
  pad4 c.1 ++ pad2 c.2.1 ++ pad2 c.2.2

/-- `strftime('%Y%m%dT%H%M%SZ')` of an absolute instant rendered in UTC. -/
def fmtStampUTC (t : Int) : Str :=
  let days := t / 86400
  let sod := t % 86400
  let c := civilFromDays days
  pad4 c.1 ++ pad2 c.2.1 ++ pad2 c.2.2 ++ 'T' ::
    (pad2 (sod / 3600) ++ pad2 (sod % 3600 / 60) ++ pad2 (sod % 60) ++ ['Z'])

/-- `strftime('%H:%M')` of an aware datetime (local civil fields). -/
def fmtHM (a : AwareDT) : Str :=
  let sod := (a.instant + a.offset) % 86400
  pad2 (sod / 3600) ++ ':' :: pad2 (sod % 3600 / 60)

/-- The local civil day of an aware datetime. -/
def localDays (a : AwareDT) : Int := (a.instant + a.offset) / 86400

/-! ### Percent-encoding (`urllib.parse.quote`) -/

/-- UTF-8 bytes of a character. -/
def utf8Bytes (c : Char) : List Nat :=
  let n := c.toNat
  if n < 0x80 then [n]
  else if n < 0x800 then [0xC0 + n / 64, 0x80 + n % 64]
  else if n < 0x10000 then [0xE0 + n / 4096, 0x80 + n / 64 % 64, 0x80 + n % 64]
  else [0xF0 + n / 262144, 0x80 + n / 4096 % 64, 0x80 + n / 64 % 64, 0x80 + n % 64]

/-- Uppercase hex digit. -/
def hexDigit (n : Nat) : Char :=
  if n < 10 then Char.ofNat (48 + n) else Char.ofNat (55 + n)

/-- `urllib.parse.quote` with the default `safe='/'`: ASCII letters,
digits, `_.-~` and `/` kept, everything else percent-encoded per UTF-8
byte. -/
def pyQuote (s : Str) : Str :=
  s.flatMap (fun c =>
    if c.isAlphanum ∨ c = '_' ∨ c = '.' ∨ c = '-' ∨ c = '~' ∨ c = '/' then [c]
    else (utf8Bytes c).flatMap (fun b => ['%', hexDigit (b / 16), hexDigit (b % 16)]))

/-! ### Calendar-add links (`_generate_calendar_links`) -/

/-- The four deep links built for an event. -/
structure CalLinks where
  google : Str
  outlook : Str
  yahoo : Str
  ical : Str
deriving DecidableEq

/-- Lines 217-237 of `_generate_calendar_links`: resolve the end (default
start+1 day all-day, start+2 hours timed), then format the start/end
timestamp pair — bare local date for all-day events, UTC stamp for timed
events.  `none` models the `astimezone` failure on a timed event whose
raw end is date-only. -/
def calendarDates (ev : RawEvent) : Option (Str × Str) :=
  let startDT := ev.startDT
  let endR : EndVal :=
    match ev.endDT with
    | some e => e
    | none =>
      if ev.isAllDay then .dt ⟨startDT.instant + 86400, startDT.offset⟩
      else .dt ⟨startDT.instant + 7200, startDT.offset⟩
  if ev.isAllDay then
    let endStr := match endR with
      | .dt a => fmtDate8 (localDays a)
      | .dateOnly d => fmtDate8 d
    some (fmtDate8 (localDays startDT), endStr)
  else
    match endR with
    | .dateOnly _ => none
    | .dt a => some (fmtStampUTC startDT.instant, fmtStampUTC a.instant)

/-- `_generate_calendar_links`: the URL strings of the four services. -/
def generateCalendarLinks (ev : RawEvent) : Option CalLinks :=
  match calendarDates ev with
  | none => none
  | some (startStr, endStr) =>
    let title := pyQuote ev.title
    let description := pyQuote ev.description
    let location := pyQuote ev.location
    let googleUrl :=
      "https://calendar.google.com/calendar/render?action=TEMPLATE&text=".toList
        ++ title ++ "&dates=".toList ++ startStr ++ '/' :: endStr
        ++ "&details=".toList ++ description ++ "&location=".toList ++ location
    some
      { google := googleUrl
        outlook :=
          "https://outlook.live.com/calendar/0/deeplink/compose?subject=".toList
            ++ title ++ "&startdt=".toList ++ startStr ++ "&enddt=".toList ++ endStr
            ++ "&body=".toList ++ description ++ "&location=".toList ++ location
            ++ "&path=/calendar/action/compose&rru=addevent".toList
        yahoo :=
          "https://calendar.yahoo.com/?v=60&title=".toList ++ title
            ++ "&st=".toList ++ startStr ++ "&et=".toList ++ endStr
            ++ "&desc=".toList ++ description ++ "&in_loc=".toList ++ location
        ical := googleUrl }

/-! ### Full display record (`format_event_for_email`) -/

/-- French month names (`_get_french_month`). -/
def frenchMonth (m : Int) : Str :=
  (["Janvier", "Février", "Mars", "Avril", "Mai", "Juin", "Juillet", "Août",
    "Septembre", "Octobre", "Novembre", "Décembre"].map String.toList).getD
    (m - 1).toNat []

/-- Short French month names (`_get_french_month_short`). -/
def frenchMonthShort (m : Int) : Str :=
  (["Jan", "Fév", "Mar", "Avr", "Mai", "Juin", "Juil", "Août", "Sep", "Oct",
    "Nov", "Déc"].map String.toList).getD (m - 1).toNat []

/-- The rotating event color palette. -/
def eventColors : List Str :=
  ["#ff6b6b", "#feca57", "#48dbfb", "#ff9ff3", "#54a0ff"].map String.toList

/-- `strftime('%H:%M')` as applied to a raw end value; Python formats a
bare date with zero time fields. -/
def endHM : EndVal → Str
  | .dt a => fmtHM a
  | .dateOnly _ => "00:00".toList

/-- `format_event_for_email`.  `pyHash` abstracts Python's process-seeded
string hash (the source's color choice is not reproducible across runs);
everything else is deterministic.  `none` models the `astimezone` failure
inside `_generate_calendar_links`. -/
def formatEventForEmail (pyHash : Str → Int) (ev : RawEvent) :
    Option DisplayEvent :=
  match generateCalendarLinks ev with
  | none => none
  | some links =>
    let timeStr : Str :=
      if ev.isAllDay then "Toute la journée".toList
      else match ev.endDT with
        | some e => fmtHM ev.startDT ++ " - ".toList ++ endHM e
        | none => fmtHM ev.startDT
    let c := civilFromDays (localDays ev.startDT)
    some
      { day := pad2 c.2.2
        month := frenchMonth c.2.1
        month_short := frenchMonthShort c.2.1
        time := timeStr
        title := ev.title
        location := ev.location
        description := descriptionHtml ev.description
        event_color := eventColors.getD ((pyHash ev.title) % 5).toNat []
        icon := chooseIcon ev.title
        add_to_google := links.google
        add_to_outlook := links.outlook
        add_to_yahoo := links.yahoo
        add_to_ical := links.ical }

/-! ## String-search lemmas -/

theorem isPre_iff (p s : Str) : isPre p s = true ↔ ∃ r, s = p ++ r := by
  induction p generalizing s with
  | nil => simp [isPre]
  | cons a ps ih =>
    cases s with
    | nil => simp [isPre]
    | cons c cs =>
      simp only [isPre, Bool.and_eq_true, beq_iff_eq, ih, List.cons_append,
        List.cons.injEq]
      constructor
      · rintro ⟨rfl, r, rfl⟩; exact ⟨r, rfl, rfl⟩
      · rintro ⟨r, rfl, rfl⟩; exact ⟨rfl, r, rfl⟩

theorem isPre_append_self (p r : Str) : isPre p (p ++ r) = true :=
  (isPre_iff p (p ++ r)).mpr ⟨r, rfl⟩

theorem isPre_subset {p s : Str} (h : isPre p s = true) : ∀ a ∈ p, a ∈ s := by
  obtain ⟨r, rfl⟩ := (isPre_iff p s).mp h
  intro a ha
  exact List.mem_append.mpr (Or.inl ha)

theorem findSub_cons (pat : Str) (c : Char) (t : Str) :
    findSub pat (c :: t) =
      if isPre pat (c :: t) then some 0 else (findSub pat t).map (· + 1) := rfl

theorem containsSub_cons (pat : Str) (c : Char) (t : Str) :
    containsSub pat (c :: t) = (isPre pat (c :: t) || containsSub pat t) := by
  unfold containsSub
  rw [findSub_cons]
  cases h : isPre pat (c :: t) <;> simp [h, Option.isSome_map]

theorem findSub_eq_none {pat s : Str} (h : containsSub pat s = false) :
    findSub pat s = none := by
  unfold containsSub at h
  exact Option.not_isSome_iff_eq_none.mp (by simp [h])

theorem containsSub_of_isPre {pat s : Str} (h : isPre pat s = true) :
    containsSub pat s = true := by
  cases s with
  | nil => unfold containsSub findSub; simp [h]
  | cons c t => rw [containsSub_cons, h, Bool.true_or]

/-- A marker `'<' :: q` with `'<' ∉ q` cannot match while straddling the
boundary between a nonempty block `A` and an explicit copy of itself. -/
theorem isPre_marker_cross {q A r : Str} (hq : '<' ∉ q) (hA : A ≠ [])
    (h : isPre ('<' :: q) (A ++ (('<' :: q) ++ r)) = true) :
    isPre ('<' :: q) A = true := by
  obtain ⟨u, hu⟩ := (isPre_iff _ _).mp h
  have htake : ('<' :: q) = List.take ('<' :: q).length (A ++ (('<' :: q) ++ r)) := by
    rw [hu, List.take_append_eq_append_take, List.take_of_length_le (le_refl _),
      Nat.sub_self, List.take_zero, List.append_nil]
  rw [List.take_append_eq_append_take] at htake
  rcases le_or_lt ('<' :: q).length A.length with hle | hlt
  · -- the straddling match actually fits inside `A`
    rw [Nat.sub_eq_zero_of_le hle, List.take_zero, List.append_nil] at htake
    have hA2 : A = ('<' :: q) ++ List.drop ('<' :: q).length A := by
      conv_lhs => rw [← List.take_append_drop ('<' :: q).length A]
      rw [← htake]
    exact (isPre_iff _ _).mpr ⟨_, hA2⟩
  · -- otherwise the marker would need a border, impossible since `'<' ∉ q`
    exfalso
    rw [List.take_of_length_le (Nat.le_of_lt hlt)] at htake
    cases A with
    | nil => exact hA rfl
    | cons a A' =>
      obtain ⟨k, hk⟩ := Nat.exists_eq_succ_of_ne_zero
        (Nat.pos_iff_ne_zero.mp (Nat.sub_pos_of_lt hlt))
      rw [hk] at htake
      have hcons : ('<' :: q) ++ r = '<' :: (q ++ r) := rfl
      rw [List.cons_append, hcons, List.take_succ_cons] at htake
      injection htake with h1 h2
      exact hq (by rw [h2]; exact List.mem_append.mpr (Or.inr (List.mem_cons_self _ _)))

/-- First-occurrence location: if `A` contains no occurrence of the marker,
the first occurrence in `A ++ marker ++ r` is exactly at index `|A|`. -/
theorem findSub_append_marker {q : Str} (hq : '<' ∉ q) :
    ∀ (A r : Str), containsSub ('<' :: q) A = false →
      findSub ('<' :: q) (A ++ (('<' :: q) ++ r)) = some A.length := by
  intro A
  induction A with
  | nil =>
    intro r _
    have hcons : ('<' :: q) ++ r = '<' :: (q ++ r) := rfl
    rw [List.nil_append, hcons, findSub_cons,
      if_pos (by rw [← hcons]; exact isPre_append_self _ _)]
    rfl
  | cons a A ih =>
    intro r hA
    rw [containsSub_cons] at hA
    have hsplit : isPre ('<' :: q) (a :: A) = false ∧ containsSub ('<' :: q) A = false :=
      ⟨by cases h : isPre ('<' :: q) (a :: A) <;> simp_all,
        by cases h : containsSub ('<' :: q) A <;> simp_all⟩
    have hnot : isPre ('<' :: q) ((a :: A) ++ (('<' :: q) ++ r)) = false := by
      cases h : isPre ('<' :: q) ((a :: A) ++ (('<' :: q) ++ r)) with
      | false => rfl
      | true =>
        have hin := isPre_marker_cross hq (by simp) h
        rw [hin] at hsplit
        exact absurd hsplit.1 (by simp)
    change findSub ('<' :: q) (a :: (A ++ (('<' :: q) ++ r))) = _
    rw [findSub_cons, if_neg (by simpa using hnot), ih r hsplit.2]
    rfl

/-! ## Marker facts and region decomposition -/

theorem startMarker_eq : startMarker = '<' :: "!-- EVENT_LOOP_START -->".toList := rfl

theorem endMarker_eq : endMarker = '<' :: "!-- EVENT_LOOP_END -->".toList := rfl

theorem startTail_no_lt : '<' ∉ "!-- EVENT_LOOP_START -->".toList := by decide

theorem endTail_no_lt : '<' ∉ "!-- EVENT_LOOP_END -->".toList := by decide

theorem replaceRegionsAux_no_marker (x : Str) (f : Nat) {s : Str}
    (h : findSub startMarker s = none) : replaceRegionsAux x f s = s := by
  cases f with
  | zero => rfl
  | succ n => simp [replaceRegionsAux, h]

theorem take_append_len (A rest : Str) : (A ++ rest).take A.length = A := by
  rw [List.take_append_eq_append_take, List.take_of_length_le (le_refl _),
    Nat.sub_self, List.take_zero, List.append_nil]

theorem drop_append_len (A rest : Str) (k : Nat) :
    (A ++ rest).drop (A.length + k) = rest.drop k := by
  rw [List.drop_append_eq_append_drop, List.drop_eq_nil_of_le (by omega),
    Nat.add_sub_cancel_left, List.nil_append]

theorem drop_append_self (A rest : Str) : (A ++ rest).drop A.length = rest := by
  have h := drop_append_len A rest 0
  rw [Nat.add_zero, List.drop_zero] at h
  exact h

theorem findSub_start_at (A r : Str) (hA : containsSub startMarker A = false) :
    findSub startMarker (A ++ (startMarker ++ r)) = some A.length := by
  rw [startMarker_eq] at hA ⊢
  exact findSub_append_marker startTail_no_lt A r hA

theorem findSub_end_at (B r : Str) (hB : containsSub endMarker B = false) :
    findSub endMarker (B ++ (endMarker ++ r)) = some B.length := by
  rw [endMarker_eq] at hB ⊢
  exact findSub_append_marker endTail_no_lt B r hB

theorem replaceRegionsAux_decomp (x A B C : Str) (f : Nat)
    (hA : containsSub startMarker A = false)
    (hB : containsSub endMarker B = false)
    (hC : containsSub startMarker C = false) :
    replaceRegionsAux x (f + 1) (A ++ (startMarker ++ (B ++ (endMarker ++ C))))
      = A ++ x ++ C := by
  have h1 : findSub startMarker (A ++ (startMarker ++ (B ++ (endMarker ++ C))))
      = some A.length := findSub_start_at A _ hA
  have hdrop : (A ++ (startMarker ++ (B ++ (endMarker ++ C)))).drop
      (A.length + startMarker.length) = B ++ (endMarker ++ C) := by
    rw [drop_append_len, drop_append_self]
  have h2 : findSub endMarker ((A ++ (startMarker ++ (B ++ (endMarker ++ C)))).drop
      (A.length + startMarker.length)) = some B.length := by
    rw [hdrop]; exact findSub_end_at B _ hB
  have h3 : (A ++ (startMarker ++ (B ++ (endMarker ++ C)))).drop
      (A.length + startMarker.length + B.length + endMarker.length) = C := by
    rw [show A.length + startMarker.length + B.length + endMarker.length
        = A.length + (startMarker.length + (B.length + endMarker.length)) by omega,
      drop_append_len, drop_append_len, drop_append_len, drop_append_self]
  simp only [replaceRegionsAux]
  rw [h1]
  simp only []
  rw [h2]
  simp only []
  rw [take_append_len, h3,
    replaceRegionsAux_no_marker x f (findSub_eq_none hC)]

theorem replaceRegions_decomp (x A B C : Str)
    (hA : containsSub startMarker A = false)
    (hB : containsSub endMarker B = false)
    (hC : containsSub startMarker C = false) :
    replaceRegions x (A ++ startMarker ++ B ++ endMarker ++ C) = A ++ x ++ C := by
  have hassoc : A ++ startMarker ++ B ++ endMarker ++ C
      = A ++ (startMarker ++ (B ++ (endMarker ++ C))) := by
    simp [List.append_assoc]
  have hlen : (A ++ (startMarker ++ (B ++ (endMarker ++ C)))).length ≠ 0 := by
    have h25 : startMarker.length = 25 := rfl
    simp only [List.length_append]
    omega
  obtain ⟨f, hf⟩ := Nat.exists_eq_succ_of_ne_zero hlen
  rw [replaceRegions, hassoc, hf]
  exact replaceRegionsAux_decomp x A B C f hA hB hC

theorem extractEventTemplate_decomp (A B C : Str)
    (hA : containsSub startMarker A = false)
    (hB : containsSub endMarker B = false) :
    extractEventTemplate (A ++ startMarker ++ B ++ endMarker ++ C) = pyStrip B := by
  have hassoc : A ++ startMarker ++ B ++ endMarker ++ C
      = A ++ (startMarker ++ (B ++ (endMarker ++ C))) := by
    simp [List.append_assoc]
  have h1 : findSub startMarker (A ++ (startMarker ++ (B ++ (endMarker ++ C))))
      = some A.length := findSub_start_at A _ hA
  have hdrop : (A ++ (startMarker ++ (B ++ (endMarker ++ C)))).drop
      (A.length + startMarker.length) = B ++ (endMarker ++ C) := by
    rw [drop_append_len, drop_append_self]
  have h2 : findSub endMarker ((A ++ (startMarker ++ (B ++ (endMarker ++ C)))).drop
      (A.length + startMarker.length)) = some B.length := by
    rw [hdrop]; exact findSub_end_at B _ hB
  rw [hassoc]
  unfold extractEventTemplate
  rw [h1]
  simp only []
  rw [h2]
  simp only []
  rw [hdrop, take_append_len]

theorem generate_decomp (A B C : Str) (evs : List DisplayEvent)
    (hA : containsSub startMarker A = false)
    (hB : containsSub endMarker B = false)
    (hC : containsSub startMarker C = false) :
    generateFromTemplate (A ++ startMarker ++ B ++ endMarker ++ C) evs
      = A ++ generateEventsHtml (A ++ startMarker ++ B ++ endMarker ++ C) evs ++ C :=
  replaceRegions_decomp _ A B C hA hB hC

/-- C2: the unconditional claim is false — the compiler removes the marker
region, but a marker occurrence can be recreated by juxtaposition.  What
holds: for a well-formed template the output is exactly
`prefix ++ eventsHtml ++ suffix`, and it is marker-free whenever that
concatenation is marker-free. -/
theorem c2_marker_removal (A B C : Str) (evs : List DisplayEvent)
    (hA1 : containsSub startMarker A = false)
    (hA2 : containsSub endMarker A = false)
    (hB1 : containsSub startMarker B = false)
    (hB2 : containsSub endMarker B = false)
    (hC1 : containsSub startMarker C = false)
    (hC2 : containsSub endMarker C = false) :
    generateFromTemplate (A ++ startMarker ++ B ++ endMarker ++ C) evs
      = A ++ generateEventsHtml (A ++ startMarker ++ B ++ endMarker ++ C) evs ++ C
    ∧ (containsSub startMarker
          (A ++ generateEventsHtml (A ++ startMarker ++ B ++ endMarker ++ C) evs ++ C)
            = false →
       containsSub endMarker
          (A ++ generateEventsHtml (A ++ startMarker ++ B ++ endMarker ++ C) evs ++ C)
            = false →
       containsSub startMarker
          (generateFromTemplate (A ++ startMarker ++ B ++ endMarker ++ C) evs) = false
       ∧ containsSub endMarker
          (generateFromTemplate (A ++ startMarker ++ B ++ endMarker ++ C) evs) = false) := by
  have h := generate_decomp A B C evs hA1 hB2 hC1
  exact ⟨h, fun h1 h2 => by rw [h]; exact ⟨h1, h2⟩⟩

theorem c2_marker_removal_witness :
    containsSub startMarker "<p>".toList = false ∧
    generateFromTemplate
        ("<p>".toList ++ startMarker ++ "{title}".toList ++ endMarker ++ "</p>".toList) []
      = "<p>".toList ++
          generateEventsHtml
            ("<p>".toList ++ startMarker ++ "{title}".toList ++ endMarker ++ "</p>".toList) []
          ++ "</p>".toList :=
  ⟨by decide,
    (c2_marker_removal "<p>".toList "{title}".toList "</p>".toList []
      (by decide) (by decide) (by decide) (by decide) (by decide) (by decide)).1⟩

/-- C2 counterexample: a well-formed template whose prefix and suffix
juxtapose to the start marker once the region is cut out.  With zero
events the substituted events HTML is empty, and the compiled output is
literally the start marker — the claimed zero-occurrence property fails. -/
theorem c2_counterexample :
    containsSub startMarker
      (generateFromTemplate
        ("<!-- EVENT_LOOP_STA".toList ++ startMarker ++ "x".toList ++ endMarker
          ++ "RT -->".toList) []) = true := by
  have hg := generate_decomp "<!-- EVENT_LOOP_STA".toList "x".toList "RT -->".toList []
    (by decide) (by decide) (by decide)
  have hx : extractEventTemplate
      ("<!-- EVENT_LOOP_STA".toList ++ startMarker ++ "x".toList ++ endMarker
        ++ "RT -->".toList) = "x".toList := by
    rw [extractEventTemplate_decomp _ _ _ (by decide) (by decide)]
    decide
  have hempty : generateEventsHtml
      ("<!-- EVENT_LOOP_STA".toList ++ startMarker ++ "x".toList ++ endMarker
        ++ "RT -->".toList) [] = [] := by
    unfold generateEventsHtml
    rw [hx]
    decide
  rw [hg, hempty]
  decide

theorem generate_markerless_noop (doc : Str) (evs : List DisplayEvent)
    (h1 : containsSub startMarker doc = false) :
    generateFromTemplate doc evs = doc := by
  unfold generateFromTemplate replaceRegions
  exact replaceRegionsAux_no_marker _ _ (findSub_eq_none h1)

/-- C6: compiling an already-compiled document (one containing no markers)
with an empty event list returns it unchanged — the substitution finds no
region, so nothing is touched and no marker is reintroduced. -/
theorem c6_recompile_noop (doc : Str)
    (h1 : containsSub startMarker doc = false)
    (h2 : containsSub endMarker doc = false) :
    generateFromTemplate doc [] = doc :=
  generate_markerless_noop doc [] h1

theorem c6_recompile_noop_witness :
    containsSub startMarker "<html><body>ok</body></html>".toList = false ∧
    containsSub endMarker "<html><body>ok</body></html>".toList = false ∧
    generateFromTemplate "<html><body>ok</body></html>".toList []
      = "<html><body>ok</body></html>".toList :=
  ⟨by decide, by decide,
    c6_recompile_noop "<html><body>ok</body></html>".toList (by decide) (by decide)⟩

/-- C4: code behaviour at the failing input.  On a template with no marker
region the error fragment built by `_generate_events_html` never reaches
the output: the substitution finds no region and returns the template
unchanged, so the result carries no error fragment (and `main` goes on to
the send step instead of aborting). -/
theorem c4_markerless_keeps_template :
    generateFromTemplate "<html><body>Bonjour</body></html>".toList []
      = "<html><body>Bonjour</body></html>".toList
    ∧ containsSub errorFragment
        (generateFromTemplate "<html><body>Bonjour</body></html>".toList []) = false := by
  constructor
  · exact generate_markerless_noop _ [] (by decide)
  · rw [generate_markerless_noop _ [] (by decide)]
    decide

/-! ## Placeholder substitution (C10) -/

theorem strReplaceAux_no_occ {pat : Str} {ch : Char} (hch : ch ∈ pat)
    (repl : Str) : ∀ (n : Nat) (s : Str), ch ∉ s → strReplaceAux pat repl n s = s := by
  intro n
  induction n with
  | zero => intro s _; rfl
  | succ n ih =>
    intro s hs
    cases s with
    | nil => rfl
    | cons c t =>
      unfold strReplaceAux
      rw [if_neg (fun h => hs (isPre_subset h.2 ch hch))]
      rw [ih t (fun h => hs (List.mem_cons_of_mem c h))]

theorem strReplace_no_occ {pat : Str} {ch : Char} (hch : ch ∈ pat)
    (repl s : Str) (hs : ch ∉ s) : strReplace pat repl s = s :=
  strReplaceAux_no_occ hch repl s.length s hs

/-- C10: placeholder substitution is sequential in the fixed field order of
the display record, not simultaneous.  With the single-placeholder template
`{title}` and a title value that is itself the literal `{location}`
placeholder of the later location field, the injected placeholder is
replaced as well: the result is the location value. -/
theorem c10_sequential_substitution
    (d mo msh ti de co ic g o yy icl L : Str) (hL : '{' ∉ L) :
    fillEventTemplate "{title}".toList
      ⟨d, mo, msh, ti, "{location}".toList, L, de, co, ic, g, o, yy, icl⟩ = L := by
  simp only [fillEventTemplate, fieldPairs, List.foldl_cons, List.foldl_nil]
  have e1 : ∀ r : Str, strReplace "{day}".toList r "{title}".toList = "{title}".toList :=
    fun r => rfl
  have e2 : ∀ r : Str, strReplace "{month}".toList r "{title}".toList = "{title}".toList :=
    fun r => rfl
  have e3 : ∀ r : Str,
      strReplace "{month_short}".toList r "{title}".toList = "{title}".toList :=
    fun r => rfl
  have e4 : ∀ r : Str, strReplace "{time}".toList r "{title}".toList = "{title}".toList :=
    fun r => rfl
  have e5 : strReplace "{title}".toList "{location}".toList "{title}".toList
      = "{location}".toList := rfl
  have e6 : strReplace "{location}".toList L "{location}".toList = L := by
    rw [show strReplace "{location}".toList L "{location}".toList = L ++ [] from rfl,
      List.append_nil]
  rw [e1, e2, e3, e4, e5, e6,
    @strReplace_no_occ "{description}".toList (Char.ofNat 123) (by decide) de L hL,
    @strReplace_no_occ "{event_color}".toList (Char.ofNat 123) (by decide) co L hL,
    @strReplace_no_occ "{icon}".toList (Char.ofNat 123) (by decide) ic L hL,
    @strReplace_no_occ "{add_to_google}".toList (Char.ofNat 123) (by decide) g L hL,
    @strReplace_no_occ "{add_to_outlook}".toList (Char.ofNat 123) (by decide) o L hL,
    @strReplace_no_occ "{add_to_yahoo}".toList (Char.ofNat 123) (by decide) yy L hL,
    @strReplace_no_occ "{add_to_ical}".toList (Char.ofNat 123) (by decide) icl L hL]

theorem c10_sequential_substitution_witness :
    '{' ∉ "Salle polyvalente".toList ∧
    fillEventTemplate "{title}".toList
      ⟨[], [], [], [], "{location}".toList, "Salle polyvalente".toList, [], [], [],
        [], [], [], []⟩ = "Salle polyvalente".toList :=
  ⟨by decide,
    c10_sequential_substitution [] [] [] [] [] [] [] [] [] [] []
      "Salle polyvalente".toList (by decide)⟩

/-! ## Description fragment (C7) -/

theorem pyStrip_eq_nil_iff (d : Str) :
    pyStrip d = [] ↔ d.all pyIsSpace = true := by
  unfold pyStrip
  rw [List.reverse_eq_nil_iff, List.dropWhile_eq_nil_iff, List.all_eq_true]
  constructor
  · intro h x hx
    rcases List.mem_append.mp
        ((List.takeWhile_append_dropWhile pyIsSpace d) ▸ hx) with h1 | h1
    · exact List.mem_takeWhile_imp h1
    · exact h x (List.mem_reverse.mpr h1)
  · intro h x hx
    exact h x (List.Sublist.subset (List.dropWhile_sublist _) (List.mem_reverse.mp hx))

/-- C7: the display record's description fragment is empty exactly when the
raw description is empty or whitespace-only; otherwise it is the non-empty
paragraph wrapper holding the raw description verbatim (no escaping). -/
theorem c7_description_fragment (d : Str) :
    (descriptionHtml d = [] ↔ d.all pyIsSpace = true)
    ∧ (d.all pyIsSpace = false →
        descriptionHtml d = descPrefix ++ d ++ descSuffix ∧ descriptionHtml d ≠ []) := by
  by_cases hstrip : pyStrip d = []
  · have hall : d.all pyIsSpace = true := (pyStrip_eq_nil_iff d).mp hstrip
    have hempty : descriptionHtml d = [] := by
      unfold descriptionHtml
      rw [if_neg (fun h => h.2 hstrip)]
    exact ⟨by simp [hempty, hall], fun hfalse => absurd hall (by simp [hfalse])⟩
  · have hall : d.all pyIsSpace = false := by
      cases h : d.all pyIsSpace with
      | false => rfl
      | true => exact absurd ((pyStrip_eq_nil_iff d).mpr h) hstrip
    have hd : d ≠ [] := fun h => hstrip (by rw [h]; rfl)
    have hval : descriptionHtml d = descPrefix ++ d ++ descSuffix := by
      unfold descriptionHtml
      rw [if_pos ⟨hd, hstrip⟩]
    have hne : descriptionHtml d ≠ [] := by
      rw [hval]
      intro h
      have := (List.append_eq_nil.mp ((List.append_eq_nil.mp h).1)).1
      exact absurd this (by decide)
    refine ⟨⟨fun h => absurd h hne, fun h => ?_⟩, fun _ => ⟨hval, hne⟩⟩
    rw [hall] at h
    exact Bool.noConfusion h

theorem c7_description_fragment_witness :
    "Venez nombreux".toList.all pyIsSpace = false ∧
    descriptionHtml "Venez nombreux".toList
        = descPrefix ++ "Venez nombreux".toList ++ descSuffix ∧
    descriptionHtml "Venez nombreux".toList ≠ [] :=
  ⟨by decide,
    ((c7_description_fragment "Venez nombreux".toList).2 (by decide)).1,
    ((c7_description_fragment "Venez nombreux".toList).2 (by decide)).2⟩

/-! ## Icon selection (C9) -/

theorem list_find_cons {α : Type} (p : α → Bool) (a : α) (l : List α) :
    List.find? p (a :: l) = if p a = true then some a else List.find? p l := by
  cases h : p a <;> simp [List.find?, h]

/-- C9: the icon chain implements first-matching-group selection in the
spec's priority order, and the four sample titles yield the meal, hike,
meeting and default icons respectively. -/
theorem c9_icon_selection :
    (∀ t : Str, chooseIcon t = specSelectIcon t)
    ∧ chooseIcon "Repas partagé".toList = "🍽️".toList
    ∧ chooseIcon "Randonnée".toList = "🥾".toList
    ∧ chooseIcon "Réunion mensuelle".toList = "📋".toList
    ∧ chooseIcon ("Fête de fin d".toList ++ Char.ofNat 39 :: "année".toList)
        = "🎉".toList := by
  refine ⟨?_, by decide, by decide, by decide, by decide⟩
  intro t
  unfold chooseIcon specSelectIcon iconGroups
  rw [list_find_cons, list_find_cons, list_find_cons, list_find_cons, list_find_cons,
    List.find?_nil]
  simp only [List.any_cons, List.any_nil, Bool.or_false, apply_ite
    (fun o : Option (List Str × Str) =>
      match o with
      | some g => g.2
      | none => "🎉".toList)]
  simp only [Bool.or_assoc]

/-! ## Calendar-add links (C8) -/

theorem localDays_add_day (a : AwareDT) :
    localDays ⟨a.instant + 86400, a.offset⟩ = localDays a + 1 := by
  unfold localDays
  rw [show a.instant + 86400 + a.offset = a.instant + a.offset + 1 * 86400 by ring,
    Int.add_mul_ediv_right _ _ (show (86400 : Int) ≠ 0 by norm_num)]

/-- C8: for an event with no explicit end, the calendar-link timestamp pair
defaults the end to start + 1 day (all-day) or start + 2 hours (timed);
all-day stamps are bare local dates, timed stamps are the UTC
`YYYYMMDDTHHMMSSZ` rendering of the instants. -/
theorem c8_default_end (ev : RawEvent) (h : ev.endDT = none) :
    calendarDates ev = some
      (if ev.isAllDay then
        (fmtDate8 (localDays ev.startDT), fmtDate8 (localDays ev.startDT + 1))
      else
        (fmtStampUTC ev.startDT.instant, fmtStampUTC (ev.startDT.instant + 7200))) := by
  unfold calendarDates
  rw [h]
  by_cases ha : ev.isAllDay
  · simp only [ha, if_true]
    rw [← localDays_add_day ev.startDT]
  · simp only [ha, if_false, Bool.false_eq_true]

theorem c8_default_end_witness :
    calendarDates (RawEvent.mk [] [] [] ⟨1000000, 3600⟩ none false) = some
      (if (RawEvent.mk [] [] [] ⟨1000000, 3600⟩ none false).isAllDay then
        (fmtDate8 (localDays ⟨1000000, 3600⟩),
          fmtDate8 (localDays ⟨1000000, 3600⟩ + 1))
      else (fmtStampUTC 1000000, fmtStampUTC (1000000 + 7200))) :=
  c8_default_end _ rfl

/-! ## Fetching, filtering and sorting (C1, C3, C5) -/

theorem insertByStart_perm (x : RawEvent) (l : List RawEvent) :
    (insertByStart x l).Perm (x :: l) := by
  induction l with
  | nil => exact List.Perm.refl _
  | cons y ys ih =>
    unfold insertByStart
    by_cases h : x.startDT.instant ≤ y.startDT.instant
    · rw [if_pos h]
    · rw [if_neg h]
      exact (ih.cons y).trans (List.Perm.swap x y ys)

theorem sortByStart_perm (l : List RawEvent) : (sortByStart l).Perm l := by
  induction l with
  | nil => exact List.Perm.refl _
  | cons x xs ih => exact (insertByStart_perm x (sortByStart xs)).trans (ih.cons x)

theorem insertByStart_pairwise (x : RawEvent) (l : List RawEvent)
    (h : List.Pairwise (fun a b : RawEvent => a.startDT.instant ≤ b.startDT.instant) l) :
    List.Pairwise (fun a b : RawEvent => a.startDT.instant ≤ b.startDT.instant)
      (insertByStart x l) := by
  induction l with
  | nil => simp [insertByStart]
  | cons y ys ih =>
    rw [List.pairwise_cons] at h
    unfold insertByStart
    by_cases hxy : x.startDT.instant ≤ y.startDT.instant
    · rw [if_pos hxy, List.pairwise_cons]
      refine ⟨?_, List.pairwise_cons.mpr h⟩
      intro b hb
      rcases List.mem_cons.mp hb with rfl | hb
      · exact hxy
      · exact le_trans hxy (h.1 b hb)
    · rw [if_neg hxy, List.pairwise_cons]
      refine ⟨?_, ih h.2⟩
      intro b hb
      rcases List.mem_cons.mp ((insertByStart_perm x ys).mem_iff.mp hb) with rfl | hb2
      · exact le_of_lt (lt_of_not_le hxy)
      · exact h.1 b hb2

theorem sortByStart_pairwise (l : List RawEvent) :
    List.Pairwise (fun a b : RawEvent => a.startDT.instant ≤ b.startDT.instant)
      (sortByStart l) := by
  induction l with
  | nil => exact List.Pairwise.nil
  | cons x xs ih => exact insertByStart_pairwise x _ ih

theorem filter_insertByStart (t : Int) (x : RawEvent) (l : List RawEvent) :
    (insertByStart x l).filter (fun e => e.startDT.instant == t)
      = if x.startDT.instant == t then
          x :: l.filter (fun e => e.startDT.instant == t)
        else l.filter (fun e => e.startDT.instant == t) := by
  induction l with
  | nil =>
    cases h : (x.startDT.instant == t) <;> simp [insertByStart, List.filter_cons, h]
  | cons y ys ih =>
    unfold insertByStart
    by_cases hxy : x.startDT.instant ≤ y.startDT.instant
    · rw [if_pos hxy]
      cases h : (x.startDT.instant == t) <;> simp [List.filter_cons, h]
    · rw [if_neg hxy]
      cases hx : (x.startDT.instant == t) with
      | true =>
        have hy : (y.startDT.instant == t) = false := by
          have hxt : x.startDT.instant = t := beq_iff_eq.mp hx
          have hyx : y.startDT.instant < x.startDT.instant := lt_of_not_le hxy
          exact beq_eq_false_iff_ne.mpr (by omega)
        rw [List.filter_cons, List.filter_cons]
        simp only [hy, ih, hx, if_true, if_false, Bool.false_eq_true]
      | false =>
        rw [List.filter_cons, List.filter_cons]
        cases hy : (y.startDT.instant == t) <;>
          simp [hy, ih, hx]

theorem filter_sortByStart (t : Int) (l : List RawEvent) :
    (sortByStart l).filter (fun e => e.startDT.instant == t)
      = l.filter (fun e => e.startDT.instant == t) := by
  induction l with
  | nil => rfl
  | cons x xs ih =>
    unfold sortByStart
    rw [filter_insertByStart]
    cases h : (x.startDT.instant == t) <;> simp [List.filter_cons, h, ih]

/-- C5: the fetched event list is sorted ascending by start instant, and the
sort is stable — for every start instant the events carrying it appear in
the same order as in the parsed (feed-order) list. -/
theorem c5_sorted_stable (tz : Int) (comps : List VComponent) (now daysAhead : Int) :
    List.Pairwise (fun a b : RawEvent => a.startDT.instant ≤ b.startDT.instant)
      (fetchEvents tz comps now daysAhead)
    ∧ ∀ t : Int,
        (fetchEvents tz comps now daysAhead).filter (fun e => e.startDT.instant == t)
          = (parsedEvents tz comps now daysAhead).filter
              (fun e => e.startDT.instant == t) :=
  ⟨sortByStart_pairwise _, fun t => filter_sortByStart t _⟩

/-- C1: an event appears in the fetched list exactly when some `VEVENT`
component parses to it, and for a component whose start parses, the parse
returns nothing exactly when the start instant lies outside the closed
window `[now, now + days_ahead]` — both boundary instants are kept. -/
theorem c1_window_filter (tz : Int) (comps : List VComponent) (now daysAhead : Int) :
    (∀ e : RawEvent, e ∈ fetchEvents tz comps now daysAhead ↔
      ∃ c ∈ comps, c.cname = "VEVENT".toList
        ∧ parseEvent tz c now (now + daysAhead * 86400) = some e)
    ∧ ∀ (c : VComponent) (dv : DtVal), c.dtstart = some dv →
        (parseEvent tz c now (now + daysAhead * 86400) = none ↔
          ((normalizeStart tz dv).instant < now
            ∨ (normalizeStart tz dv).instant > now + daysAhead * 86400)) := by
  constructor
  · intro e
    unfold fetchEvents
    rw [(sortByStart_perm _).mem_iff]
    unfold parsedEvents
    simp [List.mem_filterMap, List.mem_filter, and_assoc]
  · intro c dv hdv
    unfold parseEvent
    rw [hdv]
    by_cases h : (normalizeStart tz dv).instant < now
        ∨ (normalizeStart tz dv).instant > now + daysAhead * 86400
    · simp [h]
    · simp [h]

theorem c1_window_filter_witness :
    parseEvent 0 (VComponent.mk "VEVENT".toList (some (DtVal.aware 100)) none none
        none none) 0 (0 + 1 * 86400) = none ↔
      ((normalizeStart 0 (DtVal.aware 100)).instant < 0
        ∨ (normalizeStart 0 (DtVal.aware 100)).instant > 0 + 1 * 86400) :=
  (c1_window_filter 0 [] 0 1).2 _ _ rfl

/-- C3: a feed entry whose start is missing/unparsable is dropped by the
locally-caught parse failure, and nothing else changes — the fetched list
over the batch with the bad entry equals the fetched list without it. -/
theorem c3_parse_failure_isolated (tz : Int) (pre post : List VComponent)
    (bad : VComponent) (hbad : bad.dtstart = none) (now daysAhead : Int) :
    fetchEvents tz (pre ++ bad :: post) now daysAhead
      = fetchEvents tz (pre ++ post) now daysAhead := by
  unfold fetchEvents parsedEvents
  have hpe : parseEvent tz bad now (now + daysAhead * 86400) = none := by
    unfold parseEvent; rw [hbad]
  rw [List.filter_append, List.filter_append, List.filterMap_append,
    List.filterMap_append, List.filter_cons]
  cases hn : (bad.cname == "VEVENT".toList)
  · simp only [hn, Bool.false_eq_true, if_false]
  · simp only [hn, if_true]
    rw [List.filterMap_cons]
    simp only [hpe]

theorem c3_parse_failure_isolated_witness :
    (VComponent.mk "VEVENT".toList none none none none none).dtstart = none ∧
    fetchEvents 0 ([] ++ (VComponent.mk "VEVENT".toList none none none none none)
        :: []) 0 7
      = fetchEvents 0 ([] ++ []) 0 7 :=
  ⟨rfl, c3_parse_failure_isolated 0 [] [] _ rfl 0 7⟩
